import Mathlib

/-!
Shallow embedding of the raw-ADC-sample-to-millivolt conversion routine
`convert_adc_raw_to_mvolt` from `src/hal_adc.c` (lines 284-307), together
with theorems settling the specification's claims about it.

The C routine works on machine integers:
  - `raw_val` is an `INT16`;
  - `mvolt`, `gnd_reading`, `ref_reading` are `INT32`;
  - `ref_mvolts` is a `UINT32`; the returned value is a `UINT32`.
Machine arithmetic is modelled on `Int` with explicit reduction modulo
2^32: `toInt32` maps an integer to its two's-complement `INT32` value and
`toUInt32` to its `UINT32` value.  The C `>> 1` on an `INT32` is an
arithmetic shift, i.e. floor division by 2 (`Int.fdiv`), and the C `/` on
`INT32` truncates toward zero (`Int.tdiv`).  The three calibration
quantities are read through hardware-abstraction getters
(`wiced_hal_adc_get_ground_offset`, `wiced_hal_adc_get_reference_reading`,
`wiced_hal_adc_get_reference_micro_volts`); following the specification's
data model they are passed as explicit read-only inputs.  The division by
`ref_reading - gnd_reading` faults when that 32-bit difference is zero;
the embedding returns `none` for the fault and `some v` for a normal
return of `v`.
-/

namespace HalAdc

/-- Value of an unbounded integer when stored in a two's-complement
32-bit signed register: reduction modulo 2^32 into [-2^31, 2^31). -/
def toInt32 (n : Int) : Int := (n + 2^31) % 2^32 - 2^31

/-- Value of an unbounded integer when cast to a 32-bit unsigned
register: reduction modulo 2^32 into [0, 2^32), as in the final
`(uint32_t)mvolt` cast at line 306. -/
def toUInt32 (n : Int) : Int := n % 2^32

/-- Rounding bias `(ref_reading - gnd_reading) >> 1` from line 303 of
`src/hal_adc.c`: the `INT32` subtraction followed by an arithmetic right
shift by one, i.e. floor division by 2. -/
def rounding_bias (gnd_reading ref_reading : Int) : Int :=
  Int.fdiv (toInt32 (ref_reading - gnd_reading)) 2

/-- Embedding of `convert_adc_raw_to_mvolt` (src/hal_adc.c lines 284-307).
The intermediate values `delta1`, `delta2`, `delta3` are the successive
values of the C variable `mvolt` after the statements at lines 301, 302
and 303; `span` is the divisor `ref_reading - gnd_reading` of line 304.
`none` models the divide-by-zero fault at line 304. -/
def convert_adc_raw_to_mvolt
    (raw_val gnd_reading ref_reading ref_mvolts : Int) : Option Int :=
  if raw_val = 0 then
    some 0                                               -- lines 291-294
  else
    let clamped : Int :=
      if raw_val < gnd_reading then gnd_reading else raw_val  -- lines 296-299
    let delta1 : Int := toInt32 (clamped - gnd_reading)       -- line 301
    let delta2 : Int := toInt32 (delta1 * ref_mvolts)         -- line 302
    let delta3 : Int :=
      toInt32 (delta2 + rounding_bias gnd_reading ref_reading) -- line 303
    let span : Int := toInt32 (ref_reading - gnd_reading)     -- line 304
    if span = 0 then none                                     -- fault at line 304
    else some (toUInt32 (Int.tdiv delta3 span))               -- lines 304-306

/-- Calibration state held by the hardware abstraction and read by the
three getters called at lines 287-289 of `src/hal_adc.c`. -/
structure AdcHw where
  gnd_reading : Int
  ref_reading : Int
  ref_mvolts : Int

/-- State-passing embedding of the call `convert_adc_raw_to_mvolt(raw)`:
the routine reads the calibration values through the getters and writes
no state, so the hardware state comes back unchanged. -/
def convert_hw (hw : AdcHw) (raw_val : Int) : Option Int × AdcHw :=
  (convert_adc_raw_to_mvolt raw_val
     hw.gnd_reading hw.ref_reading hw.ref_mvolts, hw)

/-- Modelled from the spec: the exact mathematical formula of the
conversion, i.e. the step sequence of specification section 4.1 carried
out in unbounded integer arithmetic (no 32-bit wrap on the intermediate
values), used as the reference point of claim C10. -/
def convert_exact
    (raw_val gnd_reading ref_reading ref_mvolts : Int) : Option Int :=
  if raw_val = 0 then
    some 0
  else
    let clamped : Int :=
      if raw_val < gnd_reading then gnd_reading else raw_val
    let delta : Int :=
      (clamped - gnd_reading) * ref_mvolts
        + Int.fdiv (ref_reading - gnd_reading) 2
    if ref_reading - gnd_reading = 0 then none
    else some (toUInt32 (Int.tdiv delta (ref_reading - gnd_reading)))

/-! Basic facts about the 32-bit reductions. -/

lemma toInt32_eq_self {n : Int} (h1 : -2^31 ≤ n) (h2 : n < 2^31) :
    toInt32 n = n := by
  unfold toInt32
  omega

lemma toInt32_lb (n : Int) : -2^31 ≤ toInt32 n := by
  unfold toInt32
  omega

lemma toInt32_ub (n : Int) : toInt32 n < 2^31 := by
  unfold toInt32
  omega

lemma toInt32_zero : toInt32 0 = 0 := by
  unfold toInt32
  omega

lemma toUInt32_eq_self {n : Int} (h1 : 0 ≤ n) (h2 : n < 2^32) :
    toUInt32 n = n := by
  unfold toUInt32
  omega

/-- Bounds of the rounding bias when the 32-bit calibration span is
positive: the bias lies in [0, span). -/
lemma rounding_bias_bounds {g r : Int} (hspan : 0 < toInt32 (r - g)) :
    0 ≤ rounding_bias g r ∧ rounding_bias g r < toInt32 (r - g) := by
  unfold rounding_bias
  rw [Int.fdiv_eq_ediv _ (by norm_num)]
  omega

/-- Whenever a nonzero raw sample does not exceed the ground offset and
the 32-bit calibration span is positive, the conversion takes the
non-shortcut path with a zero clamped delta and returns 0. -/
lemma convert_eq_zero_of_le_ground (raw g r u : Int) (hraw : raw ≠ 0)
    (hle : raw ≤ g) (hspan : 0 < toInt32 (r - g)) :
    convert_adc_raw_to_mvolt raw g r u = some 0 := by
  obtain ⟨hb0, hb1⟩ := rounding_bias_bounds hspan
  have hclamped : (if raw < g then g else raw) = g := by
    split <;> omega
  have hd : toInt32 (g - g) = 0 := by
    rw [sub_self]
    exact toInt32_zero
  have hbias : toInt32 (rounding_bias g r) = rounding_bias g r :=
    toInt32_eq_self (by omega) (lt_trans hb1 (toInt32_ub _))
  have htdiv : Int.tdiv (rounding_bias g r) (toInt32 (r - g)) = 0 := by
    rw [Int.tdiv_eq_ediv hb0 (le_of_lt hspan)]
    exact Int.ediv_eq_zero_of_lt hb0 hb1
  unfold convert_adc_raw_to_mvolt
  rw [if_neg hraw]
  simp only [hclamped, hd, zero_mul, toInt32_zero, zero_add, hbias,
    if_neg hspan.ne', htdiv]
  simp [toUInt32]

/-- Closed form of the conversion on the well-behaved domain (nonnegative
ground offset, positive unwrapped calibration span below 2^31,
nonnegative scale factor, raw sample below the INT16 upper bound, no
32-bit overflow of the scaled and biased delta): every 32-bit reduction
is the identity and the result is a plain integer quotient. -/
lemma convert_closed_form (raw g r u : Int) (hg : 0 ≤ g)
    (hs1 : 0 < r - g) (hs2 : r - g < 2^31) (hu : 0 ≤ u)
    (hraw : raw < 2^15)
    (hfit : (max raw g - g) * u + (r - g) / 2 < 2^31) :
    convert_adc_raw_to_mvolt raw g r u
      = some (((max raw g - g) * u + (r - g) / 2) / (r - g)) := by
  have hb0 : 0 ≤ (r - g) / 2 := by omega
  have hblt : (r - g) / 2 < r - g := by omega
  by_cases hraw0 : raw = 0
  · subst hraw0
    rw [show max (0 : Int) g = g from max_eq_right hg, sub_self, zero_mul,
      zero_add, Int.ediv_eq_zero_of_lt hb0 hblt]
    simp [convert_adc_raw_to_mvolt]
  · have hclamped : (if raw < g then g else raw) = max raw g := by
      rcases lt_or_le raw g with h | h
      · rw [if_pos h, max_eq_right h.le]
      · rw [if_neg (not_lt.2 h), max_eq_left h]
    have hd0 : 0 ≤ max raw g - g := by
      have := le_max_right raw g
      omega
    have hdlt : max raw g - g < 2^31 := by
      rcases le_total raw g with h | h
      · rw [max_eq_right h]
        omega
      · rw [max_eq_left h]
        omega
    have hdu0 : 0 ≤ (max raw g - g) * u := mul_nonneg hd0 hu
    have hnum0 : 0 ≤ (max raw g - g) * u + (r - g) / 2 := by omega
    have hspan32 : toInt32 (r - g) = r - g := toInt32_eq_self (by omega) hs2
    have hbias : rounding_bias g r = (r - g) / 2 := by
      unfold rounding_bias
      rw [hspan32, Int.fdiv_eq_ediv _ (by norm_num)]
    have hq0 : 0 ≤ ((max raw g - g) * u + (r - g) / 2) / (r - g) :=
      Int.ediv_nonneg hnum0 (le_of_lt hs1)
    have hqle : ((max raw g - g) * u + (r - g) / 2) / (r - g)
        ≤ (max raw g - g) * u + (r - g) / 2 :=
      Int.ediv_le_self _ hnum0
    unfold convert_adc_raw_to_mvolt
    rw [if_neg hraw0]
    simp only [hclamped, toInt32_eq_self (by omega : -2^31 ≤ max raw g - g) hdlt,
      toInt32_eq_self (by omega) (by omega :
        (max raw g - g) * u < 2^31), hbias,
      toInt32_eq_self (by omega) hfit, hspan32, if_neg hs1.ne',
      Int.tdiv_eq_ediv hnum0 (le_of_lt hs1),
      toUInt32_eq_self hq0 (by omega)]

/-! Claims. -/

/-- C1, counterexample: the claim quantifies over every call with
`reference_reading == ground_offset`, but the call with `raw_sample = 0`
returns 0 through the shortcut instead of faulting. -/
theorem C1_counterexample :
    convert_adc_raw_to_mvolt 0 7 7 5 ≠ none ∧
    convert_adc_raw_to_mvolt 0 7 7 5 = some 0 := by decide

/-- C1, amended: every call with `reference_reading == ground_offset` and
a nonzero raw sample fails with the divide-by-zero fault; nothing on the
non-shortcut path validates or guards the condition. -/
theorem C1_unguarded_divide_by_zero (raw g u : Int) (h : raw ≠ 0) :
    convert_adc_raw_to_mvolt raw g g u = none := by
  unfold convert_adc_raw_to_mvolt
  rw [if_neg h]
  simp [sub_self, toInt32_zero]

theorem C1_unguarded_divide_by_zero_witness :
    convert_adc_raw_to_mvolt 5 7 7 9 = none :=
  C1_unguarded_divide_by_zero 5 7 9 (by decide)

/-- C2: on the inputs ground_offset 100, reference_reading 1100,
reference_microvolts 1000, raw_sample 600 the conversion returns exactly
500, through the steps delta 500, scaled 500000, bias 500 giving 500500,
divided by 1000. -/
theorem C2_worked_example :
    convert_adc_raw_to_mvolt 600 100 1100 1000 = some 500 ∧
    toInt32 (600 - 100) = 500 ∧
    toInt32 (500 * 1000) = 500000 ∧
    rounding_bias 100 1100 = 500 ∧
    toInt32 (500000 + 500) = 500500 ∧
    Int.tdiv 500500 1000 = 500 := by decide

/-- C3: for every ground offset, reference reading and reference
microvolts, a zero raw sample returns 0 immediately, bypassing the
calibration arithmetic (in particular no divide-by-zero can occur). -/
theorem C3_zero_sample_shortcut :
    ∀ g r u : Int, convert_adc_raw_to_mvolt 0 g r u = some 0 := by
  intro g r u
  simp [convert_adc_raw_to_mvolt]

/-- C4, counterexample: with ground_offset 1, reference_reading 0 the
raw sample 0 is below the ground offset, yet the conversion gives 0
through the shortcut while the conversion of the ground offset itself
gives 1, so sub-ground samples are not always equivalent to the ground
offset. -/
theorem C4_counterexample :
    (0 : Int) < 1 ∧
    convert_adc_raw_to_mvolt 0 1 0 5 = some 0 ∧
    convert_adc_raw_to_mvolt 1 1 0 5 = some 1 := by decide

/-- C4, amended: when the 32-bit calibration span is positive, every raw
sample strictly below the ground offset converts to the same value as
the ground offset itself (both give 0). -/
theorem C4_clamp_to_ground (raw g r u : Int)
    (hspan : 0 < toInt32 (r - g)) (hlt : raw < g) :
    convert_adc_raw_to_mvolt raw g r u = convert_adc_raw_to_mvolt g g r u := by
  have hzero : ∀ x : Int, x ≤ g → convert_adc_raw_to_mvolt x g r u = some 0 := by
    intro x hx
    by_cases hx0 : x = 0
    · subst hx0
      simp [convert_adc_raw_to_mvolt]
    · exact convert_eq_zero_of_le_ground x g r u hx0 hx hspan
  rw [hzero raw hlt.le, hzero g le_rfl]

theorem C4_clamp_to_ground_witness :
    convert_adc_raw_to_mvolt 50 100 1100 1000
      = convert_adc_raw_to_mvolt 100 100 1100 1000 :=
  C4_clamp_to_ground 50 100 1100 1000 (by decide) (by decide)

/-- C5, counterexample: with calibration ground_offset -1000,
reference_reading 0 (so reference_reading > ground_offset) the
conversion is not non-decreasing in the raw sample: raw -1 gives 999
while raw 0 gives 0 through the zero shortcut. -/
theorem C5_counterexample :
    (-1000 : Int) < 0 ∧
    (-1 : Int) ≤ 0 ∧
    convert_adc_raw_to_mvolt (-1) (-1000) 0 1000 = some 999 ∧
    convert_adc_raw_to_mvolt 0 (-1000) 0 1000 = some 0 := by decide

/-- C5, amended: with a nonnegative ground offset, a positive
calibration span below 2^31, a nonnegative scale factor, raw samples in
the INT16 range and no 32-bit overflow of the scaled delta, the
conversion is non-decreasing in the raw sample. -/
theorem C5_monotone_in_raw_sample (raw1 raw2 g r u : Int) (hg : 0 ≤ g)
    (hs1 : 0 < r - g) (hs2 : r - g < 2^31) (hu : 0 ≤ u)
    (h12 : raw1 ≤ raw2) (hraw : raw2 < 2^15)
    (hfit : (max raw2 g - g) * u + (r - g) / 2 < 2^31) :
    ∃ v1 v2,
      convert_adc_raw_to_mvolt raw1 g r u = some v1 ∧
      convert_adc_raw_to_mvolt raw2 g r u = some v2 ∧ v1 ≤ v2 := by
  have hmax : max raw1 g ≤ max raw2 g := max_le_max h12 le_rfl
  have hmul : (max raw1 g - g) * u ≤ (max raw2 g - g) * u :=
    mul_le_mul_of_nonneg_right (by omega) hu
  have hfit1 : (max raw1 g - g) * u + (r - g) / 2 < 2^31 := by omega
  refine ⟨_, _,
    convert_closed_form raw1 g r u hg hs1 hs2 hu (by omega) hfit1,
    convert_closed_form raw2 g r u hg hs1 hs2 hu hraw hfit, ?_⟩
  exact Int.ediv_le_ediv hs1 (by omega)

theorem C5_monotone_in_raw_sample_witness :
    ∃ v1 v2,
      convert_adc_raw_to_mvolt 300 100 1100 1000 = some v1 ∧
      convert_adc_raw_to_mvolt 600 100 1100 1000 = some v2 ∧ v1 ≤ v2 :=
  C5_monotone_in_raw_sample 300 600 100 1100 1000 (by decide) (by decide)
    (by decide) (by decide) (by decide) (by decide) (by decide)

/-- C6, counterexample: the rounding bias is the arithmetic shift
`(ref_reading - gnd_reading) >> 1`, which on the odd negative span -1 is
-1, not the integer-truncating quotient 0; the difference is observable
on the non-shortcut input raw 1, ground 2, reference 1, scale 1. -/
theorem C6_counterexample :
    (1 : Int) ≠ 0 ∧
    rounding_bias 2 1 = -1 ∧
    Int.tdiv (toInt32 (1 - 2)) 2 = 0 ∧
    convert_adc_raw_to_mvolt 1 2 1 1 = some 1 := by decide

/-- C6, amended: the rounding bias is the arithmetic right shift of the
32-bit span, i.e. floor division by two; whenever the 32-bit span is
nonnegative (in particular for every positive divisor) it coincides with
the integer-truncating quotient of the span by two. -/
theorem C6_rounding_bias_floor_half_span (g r : Int)
    (h : 0 ≤ toInt32 (r - g)) :
    rounding_bias g r = Int.tdiv (toInt32 (r - g)) 2 := by
  unfold rounding_bias
  rw [Int.fdiv_eq_ediv _ (by norm_num), Int.tdiv_eq_ediv h (by norm_num)]

theorem C6_rounding_bias_floor_half_span_witness :
    0 ≤ toInt32 (1100 - 100) ∧
    rounding_bias 100 1100 = Int.tdiv (toInt32 (1100 - 100)) 2 :=
  ⟨by decide, C6_rounding_bias_floor_half_span 100 1100 (by decide)⟩

/-- C7, counterexample: doubling the reference microvolts does not
double the output: with raw 1, ground 0, reference 3 the output for
scale 1 is 0 and for scale 2 it is 1, and 1 is not 2 times 0. -/
theorem C7_counterexample :
    convert_adc_raw_to_mvolt 1 0 3 1 = some 0 ∧
    convert_adc_raw_to_mvolt 1 0 3 2 = some 1 ∧
    (1 : Int) ≠ 2 * 0 := by decide

/-- C7, amended: the output scales linearly in the reference microvolts
on the well-behaved domain when the division is exact, i.e. when the
calibration span divides the scaled clamped delta: multiplying the scale
factor by k then multiplies the output by k. -/
theorem C7_linear_scaling_exact_case (raw g r u k : Int) (hg : 0 ≤ g)
    (hs1 : 0 < r - g) (hs2 : r - g < 2^31) (hu : 0 ≤ u) (hk : 1 ≤ k)
    (hraw : raw < 2^15)
    (hfit : (max raw g - g) * (k * u) + (r - g) / 2 < 2^31)
    (hdvd : (r - g) ∣ (max raw g - g) * u) :
    ∃ v, convert_adc_raw_to_mvolt raw g r u = some v ∧
      convert_adc_raw_to_mvolt raw g r (k * u) = some (k * v) := by
  obtain ⟨q, hq⟩ := hdvd
  have hd0 : 0 ≤ max raw g - g := by
    have := le_max_right raw g
    omega
  have hle : (max raw g - g) * u ≤ (max raw g - g) * (k * u) :=
    mul_le_mul_of_nonneg_left (le_mul_of_one_le_left hu hk) hd0
  have hfitu : (max raw g - g) * u + (r - g) / 2 < 2^31 := by omega
  have hku0 : 0 ≤ k * u := mul_nonneg (by omega) hu
  have hb0 : 0 ≤ (r - g) / 2 := by omega
  have hblt : (r - g) / 2 < r - g := by omega
  have hbdiv : (r - g) / 2 / (r - g) = 0 := Int.ediv_eq_zero_of_lt hb0 hblt
  have hq2 : (max raw g - g) * (k * u) = (r - g) * (k * q) := by
    rw [mul_comm k u, ← mul_assoc, hq]
    ring
  have hv : ((max raw g - g) * u + (r - g) / 2) / (r - g) = q := by
    rw [hq, add_comm, Int.add_mul_ediv_left _ q hs1.ne', hbdiv, zero_add]
  have hvk : ((max raw g - g) * (k * u) + (r - g) / 2) / (r - g) = k * q := by
    rw [hq2, add_comm, Int.add_mul_ediv_left _ (k * q) hs1.ne', hbdiv,
      zero_add]
  refine ⟨q, ?_, ?_⟩
  · rw [convert_closed_form raw g r u hg hs1 hs2 hu hraw hfitu, hv]
  · rw [convert_closed_form raw g r (k * u) hg hs1 hs2 hku0 hraw hfit, hvk]

theorem C7_linear_scaling_exact_case_witness :
    ∃ v, convert_adc_raw_to_mvolt 600 100 1100 2 = some v ∧
      convert_adc_raw_to_mvolt 600 100 1100 (3 * 2) = some (3 * v) :=
  C7_linear_scaling_exact_case 600 100 1100 2 3 (by decide) (by decide)
    (by decide) (by decide) (by decide) (by decide) (by decide) (by decide)

/-- C8: the conversion routine is pure and deterministic: it leaves the
hardware calibration state unchanged, and a second call on the resulting
state with the same raw sample returns the same value. -/
theorem C8_pure_deterministic :
    ∀ (hw : AdcHw) (raw : Int),
      (convert_hw hw raw).2 = hw ∧
      (convert_hw (convert_hw hw raw).2 raw).1 = (convert_hw hw raw).1 :=
  fun _ _ => ⟨rfl, rfl⟩

/-- C9: a zero raw sample returns 0 before the division is reached, for
every calibration including reference_reading equal to ground_offset, and
the divide-by-zero fault can only arise from a nonzero raw sample. -/
theorem C9_zero_shortcut_precedes_division :
    ∀ g r u : Int,
      convert_adc_raw_to_mvolt 0 g r u = some 0 ∧
      ∀ raw : Int, convert_adc_raw_to_mvolt raw g r u = none → raw ≠ 0 := by
  intro g r u
  refine ⟨by simp [convert_adc_raw_to_mvolt], ?_⟩
  intro raw h h0
  subst h0
  simp [convert_adc_raw_to_mvolt] at h

theorem C9_zero_shortcut_precedes_division_witness :
    convert_adc_raw_to_mvolt 0 3 3 5 = some 0 ∧ (1 : Int) ≠ 0 :=
  ⟨(C9_zero_shortcut_precedes_division 3 3 5).1,
   (C9_zero_shortcut_precedes_division 3 3 5).2 1 (by decide)⟩

/-- C10, counterexample: the output can equal the exact formula even
when the scaled delta does not fit in a signed 32-bit integer (with span
1 the final unsigned cast cancels the wrap), so fitting is not necessary
for agreement; the last two conjuncts show a genuine wrap where the
32-bit result and the exact formula differ. -/
theorem C10_counterexample :
    convert_adc_raw_to_mvolt 3 0 1 1073741824
      = convert_exact 3 0 1 1073741824 ∧
    ¬ ((3 - 0 : Int) * 1073741824 + rounding_bias 0 1 < 2^31) ∧
    convert_adc_raw_to_mvolt 2 0 2 2147483648 = some 0 ∧
    convert_exact 2 0 2 2147483648 = some 2147483648 := by decide

/-- C10, amended: the intermediate arithmetic is 32-bit two's-complement
(modulo 2^32), and the output equals the exact unbounded-integer formula
whenever every 32-bit intermediate fits in a signed 32-bit integer: the
clamped delta, its product with the reference microvolts, the
calibration span, and the product plus the rounding bias (sufficient
condition; by the counterexample it is not necessary). -/
theorem C10_wrap_semantics (raw g r u : Int)
    (h1 : -2^31 ≤ (if raw < g then g else raw) - g)
    (h2 : (if raw < g then g else raw) - g < 2^31)
    (h3 : -2^31 ≤ ((if raw < g then g else raw) - g) * u)
    (h4 : ((if raw < g then g else raw) - g) * u < 2^31)
    (h5 : -2^31 ≤ r - g) (h6 : r - g < 2^31)
    (h7 : -2^31 ≤ ((if raw < g then g else raw) - g) * u
      + Int.fdiv (r - g) 2)
    (h8 : ((if raw < g then g else raw) - g) * u
      + Int.fdiv (r - g) 2 < 2^31) :
    convert_adc_raw_to_mvolt raw g r u = convert_exact raw g r u := by
  by_cases hraw0 : raw = 0
  · subst hraw0
    simp [convert_adc_raw_to_mvolt, convert_exact]
  · have hspan32 : toInt32 (r - g) = r - g := toInt32_eq_self h5 h6
    have hbias : rounding_bias g r = Int.fdiv (r - g) 2 := by
      unfold rounding_bias
      rw [hspan32]
    unfold convert_adc_raw_to_mvolt convert_exact
    rw [if_neg hraw0, if_neg hraw0]
    simp only [toInt32_eq_self h1 h2, toInt32_eq_self h3 h4, hbias,
      toInt32_eq_self h7 h8, hspan32]

theorem C10_wrap_semantics_witness :
    convert_adc_raw_to_mvolt 600 100 1100 1000
      = convert_exact 600 100 1100 1000 :=
  C10_wrap_semantics 600 100 1100 1000 (by decide) (by decide) (by decide)
    (by decide) (by decide) (by decide) (by decide) (by decide)

end HalAdc
